import Mathlib

/-!
Shallow embedding of the booking subsystem of `src/server.js`
(Express + libSQL backend, `clients` table).

The embedding models:
* JavaScript request-body values (`JSVal`) with JS truthiness and
  `String(...)` coercion, as used by the handlers;
* the day validation pipeline of `POST /api/clients` (regex
  `^\d{4}-\d{2}-\d{2}$`, real-calendar-date check of
  `new Date(day + "T00:00:00Z")`, UTC weekday via `getUTCDay`);
* the `clients` table as a list of rows in insertion order.  The schema
  is `id integer primary key` without AUTOINCREMENT, so SQLite assigns
  to a fresh row the rowid `max(existing ids) + 1` (or `1` for an empty
  table); deletion is physical.
* the handlers `POST /api/clients` (create), `PUT /api/clients/:id`
  (update), `DELETE /api/clients/:id` (delete),
  `GET /api/clients/search` and `GET /api/clients/summary`.
-/

/-- A JavaScript value as it can appear in a JSON request body / query. -/
inductive JSVal where
  | jstr (s : String)
  | jnum (n : Int)
  | jbool (b : Bool)
  | jnull
  | jundef
deriving DecidableEq, Repr

namespace JSVal

/-- JavaScript `String(v)` coercion. -/
def toStr : JSVal → String
  | .jstr s => s
  | .jnum n => toString n
  | .jbool b => if b then "true" else "false"
  | .jnull => "null"
  | .jundef => "undefined"

/-- JavaScript truthiness (`if (v)`), restricted to the values we model. -/
def truthy : JSVal → Bool
  | .jstr s => s ≠ ""
  | .jnum n => n ≠ 0
  | .jbool b => b
  | .jnull => false
  | .jundef => false

/-- `typeof v === "string"`. -/
def isStr : JSVal → Bool
  | .jstr _ => true
  | _ => false

end JSVal

/-- The distinct failure responses of the handlers (each corresponds to one
`res.status(400/404)` site in `src/server.js`). -/
inductive Err where
  | missingDayName
  | wrongTypePhone
  | wrongTypeNotes
  | nameRequired
  | invalidFormat
  | invalidDate
  | weekend
  | capacityExceeded
  | invalidId
  | noChanges
  | notFound
  | missingParam
deriving DecidableEq, Repr

/-! ## Date validation (lines 238-249 of `src/server.js`) -/

/-- The regex `^\d{4}-\d{2}-\d{2}$`. -/
def matches442 (s : String) : Bool :=
  match s.data with
  | [y1, y2, y3, y4, h1, m1, m2, h2, d1, d2] =>
    y1.isDigit && y2.isDigit && y3.isDigit && y4.isDigit &&
    h1 == '-' && m1.isDigit && m2.isDigit && h2 == '-' &&
    d1.isDigit && d2.isDigit
  | _ => false

/-- Value of a decimal digit character. -/
def dv (c : Char) : Nat := c.toNat - 48

/-- Split a `YYYY-MM-DD` string (assumed to satisfy `matches442`) into
year, month, day numbers. -/
def parseYMD (s : String) : Nat × Nat × Nat :=
  match s.data with
  | [y1, y2, y3, y4, _, m1, m2, _, d1, d2] =>
    (dv y1 * 1000 + dv y2 * 100 + dv y3 * 10 + dv y4,
     dv m1 * 10 + dv m2,
     dv d1 * 10 + dv d2)
  | _ => (0, 0, 0)

/-- Gregorian leap year. -/
def isLeap (y : Nat) : Bool := y % 4 == 0 && (y % 100 != 0 || y % 400 == 0)

/-- Days in a month of the Gregorian calendar. -/
def daysInMonth (y m : Nat) : Nat :=
  if m == 2 then (if isLeap y then 29 else 28)
  else if m == 4 || m == 6 || m == 9 || m == 11 then 30
  else 31

/-- `new Date(s + "T00:00:00Z")` yields a valid time iff the components
denote a real proleptic-Gregorian calendar date (V8 validates the ISO
components). -/
def validYMD (y m d : Nat) : Bool :=
  1 ≤ m && m ≤ 12 && 1 ≤ d && d ≤ daysInMonth y m

/-- Day count since 0000-03-01 of the civil calendar, for the era-shifted
year (standard civil-from-days arithmetic, all in `Nat`). -/
def civilDays (y m d : Nat) : Nat :=
  let y' := if m ≤ 2 then y - 1 else y
  let era := y' / 400
  let yoe := y' - era * 400
  let mp := (m + 9) % 12
  let doy := (153 * mp + 2) / 5 + (d - 1)
  let doe := yoe * 365 + yoe / 4 - yoe / 100 + doy
  era * 146097 + doe

/-- `getUTCDay()` of the date: 0 = Sunday … 6 = Saturday.  Computed on the
year shifted by 400 (the Gregorian weekday cycle has period 400 years), so
the whole computation stays in `Nat` for years 0-9999. -/
def weekdayOf (y m d : Nat) : Nat := (civilDays (y + 400) m d + 3) % 7

/-- JS `String.prototype.trim()` (ASCII whitespace), implemented by
structural recursion so that concrete instances evaluate in the kernel. -/
def trimStr (s : String) : String :=
  String.mk (((s.data.dropWhile Char.isWhitespace).reverse.dropWhile Char.isWhitespace).reverse)

/-! ## The `clients` table -/

/-- A row of the `clients` table (`created_at` is store-assigned wall-clock
time; no claim mentions it, so it is not modelled). -/
structure Booking where
  id : Int
  day : String
  name : String
  phone : Option String
  notes : Option String
deriving DecidableEq, Repr

/-- The table, as the list of rows in insertion order. -/
abbrev Store := List Booking

/-- `select count(*) from clients where day = ?`. -/
def countDay (d : String) (s : Store) : Nat :=
  (List.filter (fun b => b.day == d) s).length

/-- Largest id present (0 for an empty table).  SQLite assigns
`maxId s + 1` as the rowid of a fresh row for this schema
(`integer primary key` without AUTOINCREMENT). -/
def maxId (s : Store) : Int :=
  List.foldr (fun b acc => max b.id acc) 0 s

/-- Normalisation applied to `phone` / `notes` before insert
(`v == null ? null : v.trim()` then blank collapses to null); the
non-string, non-nullish case is unreachable past the type checks. -/
def normOpt (v : JSVal) : Option String :=
  match v with
  | .jstr s => if trimStr s = "" then none else some (trimStr s)
  | _ => none

/-- Successful response of `POST /api/clients`: the inserted row and the
`remaining` figure `9 - c` (with `c` the pre-insert count). -/
structure Created where
  row : Booking
  remaining : Nat
deriving DecidableEq, Repr

/-- `POST /api/clients` (lines 217-266 of `src/server.js`): validation
pipeline in source order, then count, capacity check, insert.  Returns the
response together with the table state after the request. -/
def create (day name phone notes : JSVal) (s : Store) :
    Except Err Created × Store :=
  if day.truthy = false ∨ name.truthy = false then
    (Except.error Err.missingDayName, s)
  else if phone ≠ JSVal.jundef ∧ phone ≠ JSVal.jnull ∧ phone.isStr = false then
    (Except.error Err.wrongTypePhone, s)
  else if notes ≠ JSVal.jundef ∧ notes ≠ JSVal.jnull ∧ notes.isStr = false then
    (Except.error Err.wrongTypeNotes, s)
  else if trimStr name.toStr = "" then
    (Except.error Err.nameRequired, s)
  else if matches442 day.toStr = false then
    (Except.error Err.invalidFormat, s)
  else if validYMD (parseYMD day.toStr).1 (parseYMD day.toStr).2.1 (parseYMD day.toStr).2.2 = false then
    (Except.error Err.invalidDate, s)
  else if weekdayOf (parseYMD day.toStr).1 (parseYMD day.toStr).2.1 (parseYMD day.toStr).2.2 = 0 ∨
          weekdayOf (parseYMD day.toStr).1 (parseYMD day.toStr).2.1 (parseYMD day.toStr).2.2 = 6 then
    (Except.error Err.weekend, s)
  else if 10 ≤ countDay day.toStr s then
    (Except.error Err.capacityExceeded, s)
  else
    let b : Booking := ⟨maxId s + 1, day.toStr, trimStr name.toStr, normOpt phone, normOpt notes⟩
    (Except.ok ⟨b, 9 - countDay day.toStr s⟩, s ++ [b])

/-- `DELETE /api/clients/:id` (lines 285-301): physical delete, zero
affected rows is NotFound. -/
def deleteById (i : Int) (s : Store) : Except Err Int × Store :=
  if List.length s - (List.filter (fun b => !(b.id == i)) s).length = 0 then
    (Except.error Err.notFound, s)
  else (Except.ok i, List.filter (fun b => !(b.id == i)) s)

/-- One `field = ?` assignment collected by `PUT /api/clients/:id`. -/
inductive FieldUpd where
  | uname (v : String)
  | uphone (v : Option String)
  | unotes (v : Option String)
deriving DecidableEq, Repr

/-- Field collection of `PUT /api/clients/:id` (lines 76-100): each
provided (`!== undefined`) field is independently validated; `name` must be
a non-blank string, `phone` / `notes` must be null or a string and are
blank-normalised to null. -/
def collectUpd (name phone notes : JSVal) : Except Err (List FieldUpd) := do
  let fs1 ← match name with
    | .jundef => pure []
    | .jstr v =>
      if trimStr v = "" then throw Err.nameRequired
      else pure [FieldUpd.uname (trimStr v)]
    | _ => throw Err.nameRequired
  let fs2 ← match phone with
    | .jundef => pure []
    | .jnull => pure [FieldUpd.uphone none]
    | .jstr v => pure [FieldUpd.uphone (if trimStr v = "" then none else some (trimStr v))]
    | _ => throw Err.wrongTypePhone
  let fs3 ← match notes with
    | .jundef => pure []
    | .jnull => pure [FieldUpd.unotes none]
    | .jstr v => pure [FieldUpd.unotes (if trimStr v = "" then none else some (trimStr v))]
    | _ => throw Err.wrongTypeNotes
  pure (fs1 ++ fs2 ++ fs3)

/-- Apply one collected assignment to a row. -/
def applyOne (f : FieldUpd) (b : Booking) : Booking :=
  match f with
  | .uname v => Booking.mk b.id b.day v b.phone b.notes
  | .uphone v => Booking.mk b.id b.day b.name v b.notes
  | .unotes v => Booking.mk b.id b.day b.name b.phone v

/-- `PUT /api/clients/:id` (lines 68-119), after the integer-id parse:
collect fields, reject an empty update with NoChanges, then
`update clients set ... where id = ?`; zero affected rows is NotFound. -/
def update (i : Int) (name phone notes : JSVal) (s : Store) :
    Except Err Int × Store :=
  match collectUpd name phone notes with
  | .error e => (Except.error e, s)
  | .ok fs =>
    if fs = [] then (Except.error Err.noChanges, s)
    else if (List.filter (fun b => b.id == i) s).length = 0 then
      (Except.error Err.notFound, s)
    else
      (Except.ok i,
       List.map (fun b => if b.id == i then List.foldl (fun x f => applyOne f x) b fs else b) s)

/-! ## Search (`GET /api/clients/search`, lines 34-65) -/

/-- SQLite `lower()`: ASCII-only lowercasing. -/
def asciiLower (c : Char) : Char :=
  if 'A' ≤ c ∧ c ≤ 'Z' then Char.ofNat (c.toNat + 32) else c

/-- ASCII-lowercase a string. -/
def lowerStr (s : String) : String := String.mk (s.data.map asciiLower)

/-- `pat` is an initial segment of `s` (the claim's notion of literal
substring matching; used to state the C5 counterexample, not the code). -/
def hasInit : List Char → List Char → Bool
  | [], _ => true
  | _ :: _, [] => false
  | a :: as, b :: bs => a == b && hasInit as bs

/-- `pat` occurs as a contiguous subsequence of `s` — literal substring
containment, the matching notion the claim asserts.  The code's `LIKE`
differs on patterns containing the `%` / `_` wildcards. -/
def hasSub (pat : List Char) : List Char → Bool
  | [] => hasInit pat []
  | c :: rest => hasInit pat (c :: rest) || hasSub pat rest

/-- SQLite `LIKE` matching, fuel-indexed so the recursion is structural:
`%` matches any (possibly empty) character sequence, `_` exactly one
character, anything else itself.  Every step shortens
`pat.length + s.length`, so fuel `pat.length + s.length + 1` never runs
out on the initial call. -/
def likeMatchAux : Nat → List Char → List Char → Bool
  | 0, _, _ => false
  | _ + 1, [], [] => true
  | _ + 1, [], _ :: _ => false
  | f + 1, '%' :: ps, s =>
    likeMatchAux f ps s ||
      (match s with
       | [] => false
       | _ :: rest => likeMatchAux f ('%' :: ps) rest)
  | f + 1, '_' :: ps, s =>
    (match s with
     | [] => false
     | _ :: rest => likeMatchAux f ps rest)
  | f + 1, p :: ps, s =>
    (match s with
     | [] => false
     | c :: rest => p == c && likeMatchAux f ps rest)

/-- SQLite `x LIKE pat` (no ESCAPE clause, as in the query). -/
def likeMatch (pat s : List Char) : Bool :=
  likeMatchAux (pat.length + s.length + 1) pat s

/-- `lower(name) like lower('%' || term || '%')` (line 42 of
`src/server.js`): both sides ASCII-lowered, and the bound pattern keeps
SQLite LIKE's `%` / `_` wildcard semantics. -/
def nameMatches (term : String) (b : Booking) : Bool :=
  likeMatch ('%' :: ((lowerStr term).data ++ ['%'])) (lowerStr b.name).data

/-- JS `String(n).padStart(len, '0')`. -/
def padZero (s : String) (len : Nat) : String :=
  if s.length < len then String.mk (List.replicate (len - s.length) '0') ++ s else s

/-- `` `${yyyy}-${mm}-01` `` — first day of the month, both parts padded. -/
def monthStart (y mo : Int) : String :=
  padZero (toString y) 4 ++ "-" ++ padZero (toString mo) 2 ++ "-01"

/-- First day of the following month as the code builds it: December wraps
to `` `${year + 1}-01-01` `` (year unpadded there, exactly as in source). -/
def monthNext (y mo : Int) : String :=
  if mo = 12 then toString (y + 1) ++ "-01-01"
  else padZero (toString y) 4 ++ "-" ++ padZero (toString (mo + 1)) 2 ++ "-01"

/-- `` `${String(year).padStart(4,'0')}-01-01` `` for the year-only filter. -/
def yearStart (y : Int) : String := padZero (toString y) 4 ++ "-01-01"

/-- Lexicographic comparison of character lists by code point — the BINARY
collation SQLite applies to TEXT (identical to memcmp for the ASCII day
strings involved). -/
def charListLt : List Char → List Char → Bool
  | [], [] => false
  | [], _ :: _ => true
  | _ :: _, [] => false
  | a :: as, b :: bs =>
    if a.toNat < b.toNat then true
    else if b.toNat < a.toNat then false
    else charListLt as bs

/-- SQL `x < y` on TEXT. -/
def strLt (a b : String) : Bool := charListLt a.data b.data

/-- SQL `x <= y` on TEXT. -/
def strLe (a b : String) : Bool := !(strLt b a)

theorem charListLt_irrefl (l : List Char) : charListLt l l = false := by
  induction l with
  | nil => rfl
  | cons a as ih =>
    unfold charListLt
    simp [ih]

theorem charToNat_inj {a b : Char} (h : a.toNat = b.toNat) : a = b := by
  rw [← Char.ofNat_toNat a, ← Char.ofNat_toNat b, h]

theorem charListLt_trans : ∀ {a b c : List Char}, charListLt a b = true →
    charListLt b c = true → charListLt a c = true
  | [], [], _, hab, _ => by cases hab
  | [], _ :: _, [], _, hbc => by cases hbc
  | [], _ :: _, _ :: _, _, _ => rfl
  | _ :: _, [], _, hab, _ => by cases hab
  | _ :: _, _ :: _, [], _, hbc => by cases hbc
  | a :: as, b :: bs, c :: cs, hab, hbc => by
    unfold charListLt at hab hbc ⊢
    by_cases h1 : a.toNat < b.toNat
    · by_cases h2 : b.toNat < c.toNat
      · rw [if_pos (Nat.lt_trans h1 h2)]
      · by_cases h3 : c.toNat < b.toNat
        · rw [if_neg h2, if_pos h3] at hbc
          cases hbc
        · rw [if_pos (show a.toNat < c.toNat by omega)]
    · by_cases h1' : b.toNat < a.toNat
      · rw [if_neg h1, if_pos h1'] at hab
        cases hab
      · rw [if_neg h1, if_neg h1'] at hab
        by_cases h2 : b.toNat < c.toNat
        · rw [if_pos (show a.toNat < c.toNat by omega)]
        · by_cases h3 : c.toNat < b.toNat
          · rw [if_neg h2, if_pos h3] at hbc
            cases hbc
          · rw [if_neg h2, if_neg h3] at hbc
            rw [if_neg (show ¬a.toNat < c.toNat by omega),
                if_neg (show ¬c.toNat < a.toNat by omega)]
            exact charListLt_trans hab hbc

theorem charListLt_connex : ∀ {a b : List Char}, charListLt a b = false →
    charListLt b a = false → a = b
  | [], [], _, _ => rfl
  | [], _ :: _, h, _ => by cases h
  | _ :: _, [], _, h => by cases h
  | a :: as, b :: bs, hab, hba => by
    unfold charListLt at hab hba
    by_cases h1 : a.toNat < b.toNat
    · rw [if_pos h1] at hab
      cases hab
    · by_cases h2 : b.toNat < a.toNat
      · rw [if_pos h2] at hba
        cases hba
      · rw [if_neg h1, if_neg h2] at hab
        rw [if_neg h2, if_neg h1] at hba
        have hch : a = b := charToNat_inj (by omega)
        have hrest : as = bs := charListLt_connex hab hba
        rw [hch, hrest]

theorem strLt_trans {a b c : String} (h1 : strLt a b = true)
    (h2 : strLt b c = true) : strLt a c = true :=
  charListLt_trans h1 h2

theorem strLt_connex {a b : String} (h1 : strLt a b = false)
    (h2 : strLt b a = false) : a = b := by
  have h := charListLt_connex h1 h2
  cases a
  cases b
  exact congrArg String.mk h

theorem strLt_irrefl (a : String) : strLt a a = false :=
  charListLt_irrefl a.data

/-- `order by day asc, id asc`. -/
def bkLe (a b : Booking) : Prop :=
  strLt a.day b.day = true ∨ (a.day = b.day ∧ a.id ≤ b.id)

instance decBkLe : DecidableRel bkLe := fun a b =>
  inferInstanceAs (Decidable (strLt a.day b.day = true ∨ (a.day = b.day ∧ a.id ≤ b.id)))

instance : IsTrans Booking bkLe := by
  constructor
  intro a b c hab hbc
  rcases hab with h1 | ⟨e1, i1⟩
  · rcases hbc with h2 | ⟨e2, _⟩
    · exact Or.inl (strLt_trans h1 h2)
    · exact Or.inl (e2 ▸ h1)
  · rcases hbc with h2 | ⟨e2, i2⟩
    · exact Or.inl (e1 ▸ h2)
    · exact Or.inr ⟨e1.trans e2, le_trans i1 i2⟩

instance : IsTotal Booking bkLe := by
  constructor
  intro a b
  cases hab : strLt a.day b.day with
  | true => exact Or.inl (Or.inl hab)
  | false =>
    cases hba : strLt b.day a.day with
    | true => exact Or.inr (Or.inl hba)
    | false =>
      have heq : a.day = b.day := strLt_connex hab hba
      rcases le_total a.id b.id with h | h
      · exact Or.inl (Or.inr ⟨heq, h⟩)
      · exact Or.inr (Or.inr ⟨heq.symm, h⟩)

/-- SQL `x >= lo` on TEXT. -/
def dayGe (d lo : String) : Bool := strLe lo d

/-- SQL `x < hi` on TEXT. -/
def dayLt (d hi : String) : Bool := strLt d hi

/-- Truthiness of a parsed `parseInt` query value: `none` models an absent
parameter (`null`) or a NaN parse; `some 0` is falsy like JS `0`. -/
def otruthy : Option Int → Bool
  | none => false
  | some n => n != 0

/-- `GET /api/clients/search`: required non-blank `name`; the month filter
applies only when `year && month` are truthy, the year filter when only
`year` is; `order by day asc, id asc`. -/
def searchF (nameQ : String) (year month : Option Int) (s : Store) :
    Except Err (List Booking) :=
  if trimStr nameQ = "" then Except.error Err.missingParam
  else
    let term := trimStr nameQ
    let cond : Booking → Bool :=
      if otruthy year && otruthy month then
        fun b => nameMatches term b &&
          dayGe b.day (monthStart (year.getD 0) (month.getD 0)) &&
          dayLt b.day (monthNext (year.getD 0) (month.getD 0))
      else if otruthy year && !(otruthy month) then
        fun b => nameMatches term b &&
          dayGe b.day (yearStart (year.getD 0)) &&
          dayLt b.day (yearStart (year.getD 0 + 1))
      else
        fun b => nameMatches term b
    Except.ok (List.insertionSort bkLe (List.filter cond s))

/-! ## Monthly summary (`GET /api/clients/summary`, lines 304-341) -/

/-- One client entry of a summary group:
`json_object('id', id, 'name', name, 'phone', coalesce(phone,''), 'notes', coalesce(notes,''))`. -/
structure ClientRow where
  id : Int
  name : String
  phone : String
  notes : String
deriving DecidableEq, Repr

/-- Rendering of a row into a summary client entry (null phone/notes
coalesce to the empty string). -/
def toClientRow (b : Booking) : ClientRow :=
  ClientRow.mk b.id b.name (b.phone.getD "") (b.notes.getD "")

/-- One row of the summary response: `day`, `count(*)`, grouped clients. -/
structure DayGroup where
  day : String
  count : Nat
  clients : List ClientRow
deriving DecidableEq, Repr

/-- `group by day` over rows already ordered by `day asc, id asc`:
consecutive rows with equal `day` form one group. -/
def groupRuns : List Booking → List (String × List Booking)
  | [] => []
  | b :: bs =>
    match groupRuns bs with
    | [] => [(b.day, [b])]
    | (d, g) :: rest =>
      if b.day = d then (d, b :: g) :: rest
      else (b.day, [b]) :: (d, g) :: rest

/-- `GET /api/clients/summary`: requires truthy `year` and `month`;
restricts to `[start, nextMonth)`, orders by `day asc, id asc`, groups by
day, and renders each group with its count and client list. -/
def summaryF (year month : Option Int) (s : Store) :
    Except Err (List DayGroup) :=
  if otruthy year = false ∨ otruthy month = false then Except.error Err.missingParam
  else
    let y := year.getD 0
    let mo := month.getD 0
    let inR := List.filter
      (fun b => dayGe b.day (monthStart y mo) && dayLt b.day (monthNext y mo)) s
    let sorted := List.insertionSort bkLe inR
    Except.ok ((groupRuns sorted).map (fun p => DayGroup.mk p.1 p.2.length (p.2.map toClientRow)))

/-! ## Sequential operation sequences -/

/-- One mutating request, as submitted by a client. -/
inductive Op where
  | createOp (day name phone notes : JSVal)
  | deleteOp (i : Int)

/-- Effect of one request on the table. -/
def applyOp (s : Store) (op : Op) : Store :=
  match op with
  | .createOp d n p q => (create d n p q s).2
  | .deleteOp i => (deleteById i s).2

/-- Table state after a sequence of requests executed one at a time,
starting from an empty table. -/
def runOps (ops : List Op) : Store := List.foldl applyOp [] ops

/-! ## The check-then-insert interleaving (no transaction in the source)

`POST /api/clients` issues the `select count(*)` and the `insert` as two
separate awaited statements with no enclosing transaction, so the event
loop may run the count query of a second in-flight request between the
count and the insert of the first.  `raceTwo` is that schedule for two
validated requests on the same day: both counts execute, then both
conditional inserts (each request inserting exactly when the count it
observed was below 10, as the handler does). -/
def raceTwo (day n1 n2 : String) (s : Store) :
    (Option Nat × Option Nat) × Store :=
  let c1 := countDay day s
  let c2 := countDay day s
  let p1 : Option Nat × Store :=
    if c1 < 10 then (some (9 - c1), s ++ [⟨maxId s + 1, day, n1, none, none⟩])
    else (none, s)
  let p2 : Option Nat × Store :=
    if c2 < 10 then (some (9 - c2), p1.2 ++ [⟨maxId p1.2 + 1, day, n2, none, none⟩])
    else (none, p1.2)
  ((p1.1, p2.1), p2.2)

/-- A weekday (`2024-06-03` is a Monday) with nine bookings already stored. -/
def nineStore : Store :=
  (List.range 9).map (fun i => ⟨(i : Int) + 1, "2024-06-03", "c" ++ toString i, none, none⟩)

/-- The request content checked before the capacity comparison: truthy
`day` and `name`, well-typed `phone` / `notes`, non-blank trimmed name,
`YYYY-MM-DD` shape, a real calendar date, and a Monday-Friday weekday. -/
def validCreateReq (day name phone notes : JSVal) : Prop :=
  day.truthy = true ∧ name.truthy = true ∧
  (phone = JSVal.jundef ∨ phone = JSVal.jnull ∨ phone.isStr = true) ∧
  (notes = JSVal.jundef ∨ notes = JSVal.jnull ∨ notes.isStr = true) ∧
  trimStr name.toStr ≠ "" ∧
  matches442 day.toStr = true ∧
  validYMD (parseYMD day.toStr).1 (parseYMD day.toStr).2.1 (parseYMD day.toStr).2.2 = true ∧
  weekdayOf (parseYMD day.toStr).1 (parseYMD day.toStr).2.1 (parseYMD day.toStr).2.2 ≠ 0 ∧
  weekdayOf (parseYMD day.toStr).1 (parseYMD day.toStr).2.1 (parseYMD day.toStr).2.2 ≠ 6

instance decValidCreateReq (day name phone notes : JSVal) :
    Decidable (validCreateReq day name phone notes) :=
  inferInstanceAs (Decidable (_ ∧ _))

/-! ## Helper lemmas -/

theorem countDay_append (d : String) (s t : Store) :
    countDay d (s ++ t) = countDay d s + countDay d t := by
  unfold countDay
  rw [List.filter_append, List.length_append]

theorem countDay_single (d : String) (b : Booking) :
    countDay d [b] = if b.day = d then 1 else 0 := by
  unfold countDay
  by_cases h : b.day = d <;> simp [List.filter_cons, h]

theorem countDay_filter_le (d : String) (p : Booking → Bool) (s : Store) :
    countDay d (List.filter p s) ≤ countDay d s := by
  unfold countDay
  exact ((List.filter_sublist s).filter _).length_le

/-- Either a create request leaves the table unchanged, or the pre-insert
count was below 10 and exactly the new row was appended. -/
theorem create_snd_eq_or (day name phone notes : JSVal) (s : Store) :
    (create day name phone notes s).2 = s ∨
    (countDay day.toStr s < 10 ∧
     (create day name phone notes s).2 =
       s ++ [⟨maxId s + 1, day.toStr, trimStr name.toStr, normOpt phone, normOpt notes⟩]) := by
  unfold create
  repeat' split
  all_goals simp_all

/-- Inversion of a successful create: the pre-insert count was below 10,
the response row and `remaining` are determined, and the row was appended. -/
theorem create_ok_inv (day name phone notes : JSVal) (s : Store) (r : Created)
    (h : (create day name phone notes s).1 = Except.ok r) :
    countDay day.toStr s < 10 ∧
    r = ⟨⟨maxId s + 1, day.toStr, trimStr name.toStr, normOpt phone, normOpt notes⟩,
         9 - countDay day.toStr s⟩ ∧
    (create day name phone notes s).2 = s ++ [r.row] := by
  unfold create at *
  repeat' split at h
  all_goals simp_all
  rename_i hdn hph hno hnm hfmt hval hwk hcap
  subst h
  have n1 : ¬(phone ≠ JSVal.jundef ∧ phone ≠ JSVal.jnull ∧ phone.isStr = false) := by
    intro hc
    rcases hc with ⟨a, b, c⟩
    rw [hph a b] at c
    cases c
  have n2 : ¬(notes ≠ JSVal.jundef ∧ notes ≠ JSVal.jnull ∧ notes.isStr = false) := by
    intro hc
    rcases hc with ⟨a, b, c⟩
    rw [hno a b] at c
    cases c
  have n3 : ¬(10 ≤ countDay day.toStr s) := by omega
  rw [if_neg n1, if_neg n2, if_neg n3]

/-- A valid request on a day whose count has reached 10 is refused with
CapacityExceeded and the table is unchanged. -/
theorem create_full (day name phone notes : JSVal) (s : Store)
    (hv : validCreateReq day name phone notes)
    (hfull : 10 ≤ countDay day.toStr s) :
    create day name phone notes s = (Except.error Err.capacityExceeded, s) := by
  obtain ⟨h1, h2, h3, h4, h5, h6, h7, h8, h9⟩ := hv
  unfold create
  have c1 : ¬(day.truthy = false ∨ name.truthy = false) := by simp [h1, h2]
  have c2 : ¬(phone ≠ JSVal.jundef ∧ phone ≠ JSVal.jnull ∧ phone.isStr = false) := by
    rcases h3 with h | h | h <;> simp [h]
  have c3 : ¬(notes ≠ JSVal.jundef ∧ notes ≠ JSVal.jnull ∧ notes.isStr = false) := by
    rcases h4 with h | h | h <;> simp [h]
  have c5 : ¬(matches442 day.toStr = false) := by simp [h6]
  have c6 : ¬(validYMD (parseYMD day.toStr).1 (parseYMD day.toStr).2.1
      (parseYMD day.toStr).2.2 = false) := by simp [h7]
  have c7 : ¬(weekdayOf (parseYMD day.toStr).1 (parseYMD day.toStr).2.1
      (parseYMD day.toStr).2.2 = 0 ∨
      weekdayOf (parseYMD day.toStr).1 (parseYMD day.toStr).2.1
      (parseYMD day.toStr).2.2 = 6) := by simp [h8, h9]
  rw [if_neg c1, if_neg c2, if_neg c3, if_neg h5, if_neg c5, if_neg c6, if_neg c7,
      if_pos hfull]

/-- A valid request on a day with a free slot succeeds: the new row gets id
`maxId s + 1`, the coerced trimmed name, normalised phone/notes, and the
response reports `remaining = 9 - c`. -/
theorem create_not_full (day name phone notes : JSVal) (s : Store)
    (hv : validCreateReq day name phone notes)
    (hc : countDay day.toStr s < 10) :
    create day name phone notes s =
      (Except.ok ⟨⟨maxId s + 1, day.toStr, trimStr name.toStr, normOpt phone, normOpt notes⟩,
        9 - countDay day.toStr s⟩,
       s ++ [⟨maxId s + 1, day.toStr, trimStr name.toStr, normOpt phone, normOpt notes⟩]) := by
  obtain ⟨h1, h2, h3, h4, h5, h6, h7, h8, h9⟩ := hv
  unfold create
  have c1 : ¬(day.truthy = false ∨ name.truthy = false) := by simp [h1, h2]
  have c2 : ¬(phone ≠ JSVal.jundef ∧ phone ≠ JSVal.jnull ∧ phone.isStr = false) := by
    rcases h3 with h | h | h <;> simp [h]
  have c3 : ¬(notes ≠ JSVal.jundef ∧ notes ≠ JSVal.jnull ∧ notes.isStr = false) := by
    rcases h4 with h | h | h <;> simp [h]
  have c5 : ¬(matches442 day.toStr = false) := by simp [h6]
  have c6 : ¬(validYMD (parseYMD day.toStr).1 (parseYMD day.toStr).2.1
      (parseYMD day.toStr).2.2 = false) := by simp [h7]
  have c7 : ¬(weekdayOf (parseYMD day.toStr).1 (parseYMD day.toStr).2.1
      (parseYMD day.toStr).2.2 = 0 ∨
      weekdayOf (parseYMD day.toStr).1 (parseYMD day.toStr).2.1
      (parseYMD day.toStr).2.2 = 6) := by simp [h8, h9]
  have c8 : ¬(10 ≤ countDay day.toStr s) := by omega
  rw [if_neg c1, if_neg c2, if_neg c3, if_neg h5, if_neg c5, if_neg c6, if_neg c7,
      if_neg c8]

/-- A request that passes the field checks and whose day parses to a real
date falling on Saturday or Sunday is refused with Weekend. -/
theorem create_weekend (day name phone notes : JSVal) (s : Store)
    (h1 : day.truthy = true) (h2 : name.truthy = true)
    (h3 : phone = JSVal.jundef ∨ phone = JSVal.jnull ∨ phone.isStr = true)
    (h4 : notes = JSVal.jundef ∨ notes = JSVal.jnull ∨ notes.isStr = true)
    (h5 : trimStr name.toStr ≠ "")
    (h6 : matches442 day.toStr = true)
    (h7 : validYMD (parseYMD day.toStr).1 (parseYMD day.toStr).2.1
      (parseYMD day.toStr).2.2 = true)
    (h8 : weekdayOf (parseYMD day.toStr).1 (parseYMD day.toStr).2.1
      (parseYMD day.toStr).2.2 = 0 ∨
      weekdayOf (parseYMD day.toStr).1 (parseYMD day.toStr).2.1
      (parseYMD day.toStr).2.2 = 6) :
    create day name phone notes s = (Except.error Err.weekend, s) := by
  unfold create
  have c1 : ¬(day.truthy = false ∨ name.truthy = false) := by simp [h1, h2]
  have c2 : ¬(phone ≠ JSVal.jundef ∧ phone ≠ JSVal.jnull ∧ phone.isStr = false) := by
    rcases h3 with h | h | h <;> simp [h]
  have c3 : ¬(notes ≠ JSVal.jundef ∧ notes ≠ JSVal.jnull ∧ notes.isStr = false) := by
    rcases h4 with h | h | h <;> simp [h]
  have c5 : ¬(matches442 day.toStr = false) := by simp [h6]
  have c6 : ¬(validYMD (parseYMD day.toStr).1 (parseYMD day.toStr).2.1
      (parseYMD day.toStr).2.2 = false) := by simp [h7]
  rw [if_neg c1, if_neg c2, if_neg c3, if_neg h5, if_neg c5, if_neg c6, if_pos h8]

/-- One request preserves the per-day capacity bound. -/
theorem countDay_applyOp_le (s : Store) (op : Op) (d : String)
    (h : countDay d s ≤ 10) : countDay d (applyOp s op) ≤ 10 := by
  cases op with
  | createOp day name phone notes =>
    show countDay d (create day name phone notes s).2 ≤ 10
    rcases create_snd_eq_or day name phone notes s with h1 | ⟨hc, h1⟩
    · rw [h1]
      exact h
    · rw [h1, countDay_append, countDay_single]
      by_cases hd : day.toStr = d
      · subst hd
        simp only [if_pos]
        omega
      · rw [if_neg hd]
        omega
  | deleteOp i =>
    show countDay d (deleteById i s).2 ≤ 10
    unfold deleteById
    split
    · exact h
    · exact le_trans (countDay_filter_le d _ s) h

/-- The capacity bound holds after any request sequence. -/
theorem countDay_runOps_le (ops : List Op) (d : String) :
    countDay d (runOps ops) ≤ 10 := by
  suffices hgen : ∀ s : Store, countDay d s ≤ 10 →
      countDay d (List.foldl applyOp s ops) ≤ 10 by
    exact hgen [] (by simp [countDay])
  induction ops with
  | nil => intro s hs; exact hs
  | cons op rest ih =>
    intro s hs
    exact ih (applyOp s op) (countDay_applyOp_le s op d hs)

/-- Every stored id is bounded by `maxId`. -/
theorem le_maxId (s : Store) (b : Booking) (hb : b ∈ s) : b.id ≤ maxId s := by
  induction s with
  | nil => cases hb
  | cons a t ih =>
    show b.id ≤ max a.id (maxId t)
    rcases List.mem_cons.mp hb with h | h
    · subst h
      exact le_max_left _ _
    · exact le_trans (ih h) (le_max_right _ _)

/-- One request preserves distinctness of the stored ids. -/
theorem nodup_applyOp (s : Store) (op : Op)
    (h : (s.map Booking.id).Nodup) : ((applyOp s op).map Booking.id).Nodup := by
  cases op with
  | createOp day name phone notes =>
    show ((create day name phone notes s).2.map Booking.id).Nodup
    rcases create_snd_eq_or day name phone notes s with h1 | ⟨_, h1⟩
    · rw [h1]
      exact h
    · rw [h1]
      rw [List.map_append]
      rw [List.nodup_append]
      refine ⟨h, List.nodup_singleton _, ?_⟩
      intro x hx
      simp only [List.mem_map] at hx
      obtain ⟨b, hb, hbid⟩ := hx
      have hle := le_maxId s b hb
      simp only [List.map_cons, List.map_nil, List.mem_singleton]
      intro hx1
      rw [← hbid] at hx1
      omega
  | deleteOp i =>
    show ((deleteById i s).2.map Booking.id).Nodup
    unfold deleteById
    split
    · exact h
    · exact ((List.filter_sublist s).map Booking.id).nodup h

/-- The stored ids stay pairwise distinct along any request sequence. -/
theorem nodup_runOps (ops : List Op) : ((runOps ops).map Booking.id).Nodup := by
  suffices hgen : ∀ s : Store, (s.map Booking.id).Nodup →
      ((List.foldl applyOp s ops).map Booking.id).Nodup by
    exact hgen [] List.nodup_nil
  induction ops with
  | nil => intro s hs; exact hs
  | cons op rest ih =>
    intro s hs
    exact ih (applyOp s op) (nodup_applyOp s op hs)

deriving instance DecidableEq for Except

/-! ## Demo runs used by the concrete parts of the claims -/

/-- One create request for `2024-06-03` with name `client<i>`, appended to
an accumulated list of responses. -/
def demoStep (p : List (Except Err Created) × Store) (i : Nat) :
    List (Except Err Created) × Store :=
  let r := create (JSVal.jstr "2024-06-03") (JSVal.jstr ("client" ++ toString i))
    JSVal.jundef JSVal.jundef p.2
  (p.1 ++ [r.1], r.2)

/-- `n` successive create requests for `2024-06-03` with distinct names,
starting from an empty table. -/
def demoRun (n : Nat) : List (Except Err Created) × Store :=
  List.foldl demoStep ([], []) (List.range n)

/-! ## Claims -/

/-- C1: executed one at a time from an empty table, any sequence of create
and delete requests keeps the per-day booking count at or below the
capacity 10; and a create for a day already holding 10 bookings (the
request being otherwise valid) fails with CapacityExceeded and leaves the
table unchanged. -/
theorem claim_C1_capacity (ops : List Op) (d : String)
    (day name phone notes : JSVal) (s : Store)
    (hv : validCreateReq day name phone notes)
    (hfull : 10 ≤ countDay day.toStr s) :
    countDay d (runOps ops) ≤ 10 ∧
    create day name phone notes s = (Except.error Err.capacityExceeded, s) :=
  ⟨countDay_runOps_le ops d, create_full day name phone notes s hv hfull⟩

theorem claim_C1_capacity_witness :
    countDay "2024-06-03"
      (runOps [Op.createOp (JSVal.jstr "2024-06-03") (JSVal.jstr "Ana")
        JSVal.jundef JSVal.jundef]) ≤ 10 ∧
    create (JSVal.jstr "2024-06-03") (JSVal.jstr "Max") JSVal.jundef JSVal.jundef
      (demoRun 10).2 = (Except.error Err.capacityExceeded, (demoRun 10).2) :=
  claim_C1_capacity _ _ _ _ _ _ _ (by decide) (by decide)

/-- C2 (the code violates the claimed atomicity): with nine bookings on
`2024-06-03` (one slot left), interleaving two validated create requests as
count-count-insert-insert lets both observe a count of 9, both report
success, and the day ends with 11 bookings. -/
theorem claim_C2_race_violation :
    countDay "2024-06-03" nineStore = 9 ∧
    (raceTwo "2024-06-03" "alice" "bob" nineStore).1 = (some 0, some 0) ∧
    countDay "2024-06-03" (raceTwo "2024-06-03" "alice" "bob" nineStore).2 = 11 := by
  decide

/-- C3 (counterexample to the claim as stated): `2024-06-08` is a Saturday,
yet a create for it with an empty name fails with the missing-field error,
not the Weekend error — the field checks run before the weekday check. -/
theorem claim_C3_counterexample :
    weekdayOf 2024 6 8 = 6 ∧
    create (JSVal.jstr "2024-06-08") (JSVal.jstr "") JSVal.jundef JSVal.jundef [] =
      (Except.error Err.missingDayName, []) ∧
    Err.missingDayName ≠ Err.weekend := by
  decide

/-- C3 (amended): a create request whose other fields pass their checks
(truthy day and name, well-typed phone/notes, non-blank trimmed name,
well-formed real calendar date) and whose UTC weekday is Saturday or
Sunday always fails with the Weekend error. -/
theorem claim_C3_amended (day name phone notes : JSVal) (s : Store)
    (h1 : day.truthy = true) (h2 : name.truthy = true)
    (h3 : phone = JSVal.jundef ∨ phone = JSVal.jnull ∨ phone.isStr = true)
    (h4 : notes = JSVal.jundef ∨ notes = JSVal.jnull ∨ notes.isStr = true)
    (h5 : trimStr name.toStr ≠ "")
    (h6 : matches442 day.toStr = true)
    (h7 : validYMD (parseYMD day.toStr).1 (parseYMD day.toStr).2.1
      (parseYMD day.toStr).2.2 = true)
    (h8 : weekdayOf (parseYMD day.toStr).1 (parseYMD day.toStr).2.1
      (parseYMD day.toStr).2.2 = 0 ∨
      weekdayOf (parseYMD day.toStr).1 (parseYMD day.toStr).2.1
      (parseYMD day.toStr).2.2 = 6) :
    create day name phone notes s = (Except.error Err.weekend, s) :=
  create_weekend day name phone notes s h1 h2 h3 h4 h5 h6 h7 h8

theorem claim_C3_amended_witness :
    create (JSVal.jstr "2024-06-08") (JSVal.jstr "Ana") JSVal.jundef JSVal.jundef [] =
      (Except.error Err.weekend, []) :=
  claim_C3_amended _ _ _ _ _ (by decide) (by decide) (by decide) (by decide)
    (by decide) (by decide) (by decide) (by decide)

/-- C4: every successful create reports `remaining = 10 - 1 - c` for the
pre-insert count `c < 10`; concretely, eleven successive creates for
`2024-06-03` with distinct names yield `remaining` values 9,8,…,0 followed
by a CapacityExceeded failure. -/
theorem claim_C4_remaining (day name phone notes : JSVal) (s : Store) (r : Created)
    (h : (create day name phone notes s).1 = Except.ok r) :
    countDay day.toStr s < 10 ∧
    r.remaining = 10 - 1 - countDay day.toStr s ∧
    (demoRun 11).1.map (Except.map Created.remaining) =
      [Except.ok 9, Except.ok 8, Except.ok 7, Except.ok 6, Except.ok 5, Except.ok 4,
       Except.ok 3, Except.ok 2, Except.ok 1, Except.ok 0,
       Except.error Err.capacityExceeded] := by
  obtain ⟨hc, hr, _⟩ := create_ok_inv day name phone notes s r h
  refine ⟨hc, ?_, by decide⟩
  rw [hr]

theorem claim_C4_remaining_witness :
    countDay (JSVal.jstr "2024-06-03").toStr ([] : Store) < 10 ∧
    (Created.mk (Booking.mk 1 "2024-06-03" "Ana" none none) 9).remaining =
      10 - 1 - countDay (JSVal.jstr "2024-06-03").toStr ([] : Store) ∧
    (demoRun 11).1.map (Except.map Created.remaining) =
      [Except.ok 9, Except.ok 8, Except.ok 7, Except.ok 6, Except.ok 5, Except.ok 4,
       Except.ok 3, Except.ok 2, Except.ok 1, Except.ok 0,
       Except.error Err.capacityExceeded] :=
  claim_C4_remaining (JSVal.jstr "2024-06-03") (JSVal.jstr "Ana") JSVal.jundef
    JSVal.jundef [] (Created.mk (Booking.mk 1 "2024-06-03" "Ana" none none) 9)
    (by decide)

/-- C7: an update supplying none of name/phone/notes fails with NoChanges;
an update supplying at least one validly-typed field for an id with no
stored Booking fails with NotFound and leaves the table unchanged. -/
theorem claim_C7_update_guards (i : Int) (name phone notes : JSVal) (s : Store)
    (fs : List FieldUpd)
    (hfs : collectUpd name phone notes = Except.ok fs) (hne : fs ≠ [])
    (hmiss : ∀ b ∈ s, b.id ≠ i) :
    (∀ (j : Int) (t : Store),
      update j JSVal.jundef JSVal.jundef JSVal.jundef t = (Except.error Err.noChanges, t)) ∧
    update i name phone notes s = (Except.error Err.notFound, s) := by
  have hm : (List.filter (fun b => b.id == i) s).length = 0 := by
    rw [List.length_eq_zero, List.filter_eq_nil_iff]
    intro b hb
    simp [hmiss b hb]
  constructor
  · intro j t
    rfl
  · unfold update
    rw [hfs]
    simp only [if_neg hne, if_pos hm]

theorem claim_C7_update_guards_witness :
    (∀ (j : Int) (t : Store),
      update j JSVal.jundef JSVal.jundef JSVal.jundef t = (Except.error Err.noChanges, t)) ∧
    update 5 (JSVal.jstr "Bob") JSVal.jundef JSVal.jundef [] = (Except.error Err.notFound, []) :=
  claim_C7_update_guards 5 (JSVal.jstr "Bob") JSVal.jundef JSVal.jundef []
    [FieldUpd.uname "Bob"] (by decide) (by decide) (by decide)

/-- C8 (counterexample to "never reused"): create a booking (id 1), delete
it, create again — the second create returns id 1, the id of the deleted
Booking (the schema is `integer primary key` without AUTOINCREMENT, so
SQLite reassigns `max(id) + 1`). -/
theorem claim_C8_counterexample :
    (create (JSVal.jstr "2024-06-03") (JSVal.jstr "alice") JSVal.jundef JSVal.jundef []).1 =
      Except.ok ⟨⟨1, "2024-06-03", "alice", none, none⟩, 9⟩ ∧
    (deleteById 1
      (create (JSVal.jstr "2024-06-03") (JSVal.jstr "alice") JSVal.jundef JSVal.jundef []).2).2 = [] ∧
    (create (JSVal.jstr "2024-06-03") (JSVal.jstr "bob") JSVal.jundef JSVal.jundef
      (deleteById 1
        (create (JSVal.jstr "2024-06-03") (JSVal.jstr "alice") JSVal.jundef JSVal.jundef []).2).2).1 =
      Except.ok ⟨⟨1, "2024-06-03", "bob", none, none⟩, 9⟩ := by
  decide

/-- C8 (amended): along any sequence of create and delete requests the
stored ids are pairwise distinct at all times (each insert takes
`max(existing ids) + 1`), but an id freed by deletion can be returned
again by a later create. -/
theorem claim_C8_ids_nodup (ops : List Op) :
    ((runOps ops).map Booking.id).Nodup :=
  nodup_runOps ops

/-- C9: create applies no type check to `name` — a truthy non-string value
is coerced by `String(name).trim()` and, when the request is otherwise
valid and the day has room, the booking is inserted with the coerced
string as its name; with well-typed phone/notes a create can never fail
with a wrong-type error; update, in contrast, rejects any non-string
`name`. -/
theorem claim_C9_name_coercion (v day phone notes : JSVal) (s : Store) (i : Int)
    (hv : v.truthy = true) (hvs : v.isStr = false)
    (hvalid : validCreateReq day v phone notes)
    (hc : countDay day.toStr s < 10) :
    (create day v phone notes s).1 =
      Except.ok ⟨⟨maxId s + 1, day.toStr, trimStr v.toStr, normOpt phone, normOpt notes⟩,
        9 - countDay day.toStr s⟩ ∧
    (∀ day' phone' notes' s' e,
      (phone' = JSVal.jundef ∨ phone' = JSVal.jnull ∨ phone'.isStr = true) →
      (notes' = JSVal.jundef ∨ notes' = JSVal.jnull ∨ notes'.isStr = true) →
      (create day' v phone' notes' s').1 = Except.error e →
      e ≠ Err.wrongTypePhone ∧ e ≠ Err.wrongTypeNotes) ∧
    update i v JSVal.jundef JSVal.jundef s = (Except.error Err.nameRequired, s) := by
  refine ⟨?_, ?_, ?_⟩
  · rw [create_not_full day v phone notes s hvalid hc]
  · intro day' phone' notes' s' e hph hno h
    have c2 : ¬(phone' ≠ JSVal.jundef ∧ phone' ≠ JSVal.jnull ∧ phone'.isStr = false) := by
      rcases hph with hx | hx | hx <;> simp [hx]
    have c3 : ¬(notes' ≠ JSVal.jundef ∧ notes' ≠ JSVal.jnull ∧ notes'.isStr = false) := by
      rcases hno with hx | hx | hx <;> simp [hx]
    unfold create at h
    repeat' split at h
    all_goals try contradiction
    all_goals try simp at h
    all_goals (cases h; decide)
  · cases v with
    | jstr w => simp [JSVal.isStr] at hvs
    | jnum n => rfl
    | jbool b => rfl
    | jnull => simp [JSVal.truthy] at hv
    | jundef => simp [JSVal.truthy] at hv

theorem claim_C9_name_coercion_witness :
    (create (JSVal.jstr "2024-06-03") (JSVal.jnum 7) JSVal.jundef JSVal.jundef []).1 =
      Except.ok ⟨⟨maxId [] + 1, (JSVal.jstr "2024-06-03").toStr, trimStr (JSVal.jnum 7).toStr,
        normOpt JSVal.jundef, normOpt JSVal.jundef⟩,
        9 - countDay (JSVal.jstr "2024-06-03").toStr []⟩ ∧
    (∀ day' phone' notes' s' e,
      (phone' = JSVal.jundef ∨ phone' = JSVal.jnull ∨ phone'.isStr = true) →
      (notes' = JSVal.jundef ∨ notes' = JSVal.jnull ∨ notes'.isStr = true) →
      (create day' (JSVal.jnum 7) phone' notes' s').1 = Except.error e →
      e ≠ Err.wrongTypePhone ∧ e ≠ Err.wrongTypeNotes) ∧
    update 1 (JSVal.jnum 7) JSVal.jundef JSVal.jundef [] =
      (Except.error Err.nameRequired, []) :=
  claim_C9_name_coercion (JSVal.jnum 7) (JSVal.jstr "2024-06-03") JSVal.jundef
    JSVal.jundef [] 1 (by decide) (by decide) (by decide) (by decide)

/-- C10: when `month` is supplied but `year` is absent or does not parse
to a nonzero integer, the search applies no date restriction at all — the
result (including the error behaviour for a blank name) is identical to an
unrestricted search. -/
theorem claim_C10_month_without_year (nameQ : String) (year month : Option Int)
    (s : Store) (hyear : otruthy year = false) :
    searchF nameQ year month s = searchF nameQ none none s := by
  simp [searchF, hyear, show otruthy none = false from rfl]

theorem claim_C10_month_without_year_witness :
    searchF "ana" (some 0) (some 6) [⟨1, "2024-06-03", "Banana", none, none⟩] =
      searchF "ana" none none [⟨1, "2024-06-03", "Banana", none, none⟩] :=
  claim_C10_month_without_year "ana" (some 0) (some 6) _ (by decide)

/-- C5 (counterexample to the claim as stated): for the pattern `a%c`,
SQLite's `LIKE '%a%c%'` treats `%` as a wildcard, so the search returns a
June booking named `abc` even though `a%c` is not a literal
case-insensitive substring of `abc` — the claim's "substring containment"
reading is false for patterns containing LIKE wildcards. -/
theorem claim_C5_counterexample :
    searchF "a%c" (some 2024) (some 6) [⟨1, "2024-06-05", "abc", none, none⟩] =
      Except.ok [⟨1, "2024-06-05", "abc", none, none⟩] ∧
    hasSub (lowerStr (trimStr "a%c")).data (lowerStr "abc").data = false := by
  decide

/-- C5 (amended): a search with truthy year and month returns exactly the
bookings whose lowered name matches the SQL pattern `'%' || trim(pattern)
|| '%'` under SQLite LIKE semantics (`%` any sequence, `_` any single
character — plain case-insensitive substring containment whenever the
pattern is wildcard-free) and whose day lies in the half-open string range
`[year-month-01, first-of-next-month)` (December wrapping to January 1 of
`year + 1`), ordered by day then id. -/
theorem claim_C5_search_month (nameQ : String) (y mo : Int) (s : Store)
    (out : List Booking) (hy : y ≠ 0) (hmo : mo ≠ 0)
    (h : searchF nameQ (some y) (some mo) s = Except.ok out) :
    out.Perm (List.filter (fun b => nameMatches (trimStr nameQ) b &&
        dayGe b.day (monthStart y mo) && dayLt b.day (monthNext y mo)) s) ∧
    List.Sorted bkLe out ∧
    (∀ b : Booking, b ∈ out ↔ b ∈ s ∧
      nameMatches (trimStr nameQ) b = true ∧
      dayGe b.day (monthStart y mo) = true ∧ dayLt b.day (monthNext y mo) = true) ∧
    (mo = 12 → monthNext y mo = toString (y + 1) ++ "-01-01") := by
  have hco : (otruthy (some y) && otruthy (some mo)) = true := by
    simp [otruthy]
    exact ⟨hy, hmo⟩
  unfold searchF at h
  split at h
  · exact absurd h (by simp)
  · simp only [hco, if_true, Option.getD_some] at h
    injection h with h
    subst h
    refine ⟨List.perm_insertionSort bkLe _, List.sorted_insertionSort bkLe _, ?_, ?_⟩
    · intro b
      rw [(List.perm_insertionSort bkLe _).mem_iff, List.mem_filter]
      simp [and_assoc]
    · intro h12
      subst h12
      simp [monthNext]

/-! ## Lemmas about `groupRuns` -/

theorem groupRuns_cons (b : Booking) (bs : List Booking) :
    groupRuns (b :: bs) =
      match groupRuns bs with
      | [] => [(b.day, [b])]
      | (d, g) :: rest =>
        if b.day = d then (d, b :: g) :: rest else (b.day, [b]) :: (d, g) :: rest := rfl

theorem groupRuns_cons_nil (b : Booking) (bs : List Booking)
    (hg : groupRuns bs = []) : groupRuns (b :: bs) = [(b.day, [b])] := by
  rw [groupRuns_cons, hg]

theorem groupRuns_cons_cons (b : Booking) (bs : List Booking) (d : String)
    (g : List Booking) (rest : List (String × List Booking))
    (hg : groupRuns bs = (d, g) :: rest) :
    groupRuns (b :: bs) =
      if b.day = d then (d, b :: g) :: rest
      else (b.day, [b]) :: (d, g) :: rest := by
  rw [groupRuns_cons, hg]

theorem groupRuns_eq_nil_iff (l : List Booking) : groupRuns l = [] ↔ l = [] := by
  cases l with
  | nil => simp [groupRuns]
  | cons b bs =>
    constructor
    · intro h
      exfalso
      cases hg : groupRuns bs with
      | nil => rw [groupRuns_cons_nil b bs hg] at h; cases h
      | cons q rest =>
        obtain ⟨d, g⟩ := q
        rw [groupRuns_cons_cons b bs d g rest hg] at h
        by_cases hd : b.day = d
        · rw [if_pos hd] at h; cases h
        · rw [if_neg hd] at h; cases h
    · intro h
      cases h

theorem groupRuns_sum (l : List Booking) :
    ((groupRuns l).map (fun p => p.2.length)).sum = l.length := by
  induction l with
  | nil => rfl
  | cons b bs ih =>
    cases hg : groupRuns bs with
    | nil =>
      rw [groupRuns_cons_nil b bs hg]
      rw [hg] at ih
      simp only [List.map_nil, List.sum_nil] at ih
      simp [← ih]
    | cons q rest =>
      obtain ⟨d, g⟩ := q
      rw [groupRuns_cons_cons b bs d g rest hg]
      rw [hg] at ih
      simp only [List.map_cons, List.sum_cons] at ih
      by_cases hd : b.day = d
      · rw [if_pos hd]
        simp only [List.map_cons, List.sum_cons, List.length_cons]
        omega
      · rw [if_neg hd]
        simp only [List.map_cons, List.sum_cons, List.length_cons, List.length_nil]
        omega

theorem groupRuns_sublist (l : List Booking) :
    ∀ p ∈ groupRuns l, p.2.Sublist l := by
  induction l with
  | nil =>
    intro p hp
    rw [show groupRuns [] = [] from rfl] at hp
    cases hp
  | cons b bs ih =>
    intro p hp
    cases hg : groupRuns bs with
    | nil =>
      rw [groupRuns_cons_nil b bs hg] at hp
      rcases List.mem_singleton.mp hp with h
      subst h
      exact (List.nil_sublist bs).cons₂ b
    | cons q rest =>
      obtain ⟨d, g⟩ := q
      rw [groupRuns_cons_cons b bs d g rest hg] at hp
      by_cases hd : b.day = d
      · rw [if_pos hd] at hp
        rcases List.mem_cons.mp hp with h | h
        · subst h
          exact (ih (d, g) (hg ▸ List.mem_cons_self _ _)).cons₂ b
        · exact (ih p (hg ▸ List.mem_cons_of_mem _ h)).cons b
      · rw [if_neg hd] at hp
        rcases List.mem_cons.mp hp with h | h
        · subst h
          exact (List.nil_sublist bs).cons₂ b
        · exact (ih p (hg ▸ h)).cons b

theorem groupRuns_day (l : List Booking) :
    ∀ p ∈ groupRuns l, ∀ b ∈ p.2, b.day = p.1 := by
  induction l with
  | nil =>
    intro p hp
    rw [show groupRuns [] = [] from rfl] at hp
    cases hp
  | cons b bs ih =>
    intro p hp
    cases hg : groupRuns bs with
    | nil =>
      rw [groupRuns_cons_nil b bs hg] at hp
      rcases List.mem_singleton.mp hp with h
      subst h
      intro x hx
      rcases List.mem_singleton.mp hx with h
      subst h
      rfl
    | cons q rest =>
      obtain ⟨d, g⟩ := q
      rw [groupRuns_cons_cons b bs d g rest hg] at hp
      by_cases hd : b.day = d
      · rw [if_pos hd] at hp
        rcases List.mem_cons.mp hp with h | h
        · subst h
          intro x hx
          rcases List.mem_cons.mp hx with h | h
          · subst h
            exact hd
          · exact ih (d, g) (hg ▸ List.mem_cons_self _ _) x h
        · exact ih p (hg ▸ List.mem_cons_of_mem _ h)
      · rw [if_neg hd] at hp
        rcases List.mem_cons.mp hp with h | h
        · subst h
          intro x hx
          rcases List.mem_singleton.mp hx with h
          subst h
          rfl
        · exact ih p (hg ▸ h)

theorem groupRuns_days_mem (l : List Booking) (d : String) :
    d ∈ (groupRuns l).map Prod.fst ↔ ∃ b ∈ l, b.day = d := by
  induction l with
  | nil => simp [show groupRuns [] = [] from rfl]
  | cons b bs ih =>
    cases hg : groupRuns bs with
    | nil =>
      have hbs : bs = [] := (groupRuns_eq_nil_iff bs).mp hg
      subst hbs
      rw [groupRuns_cons_nil b [] rfl]
      simp [eq_comm]
    | cons q rest =>
      obtain ⟨d0, g⟩ := q
      rw [hg] at ih
      by_cases hd : b.day = d0
      · rw [groupRuns_cons_cons b bs d0 g rest hg, if_pos hd]
        simp only [List.map_cons, List.mem_cons] at ih ⊢
        constructor
        · intro hmem
          rcases ih.mp hmem with ⟨x, hx, hxd⟩
          exact ⟨x, Or.inr hx, hxd⟩
        · intro hmem
          obtain ⟨x, hx, hxd⟩ := hmem
          rcases hx with h | h
          · subst h
            exact Or.inl (by rw [← hxd, hd])
          · exact ih.mpr ⟨x, h, hxd⟩
      · rw [groupRuns_cons_cons b bs d0 g rest hg, if_neg hd]
        simp only [List.map_cons, List.mem_cons] at ih ⊢
        constructor
        · intro hmem
          rcases hmem with h1 | hmem2
          · exact ⟨b, Or.inl rfl, h1.symm⟩
          · rcases ih.mp hmem2 with ⟨x, hx, hxd⟩
            exact ⟨x, Or.inr hx, hxd⟩
        · intro hmem
          obtain ⟨x, hx, hxd⟩ := hmem
          rcases hx with h | h
          · subst h
            exact Or.inl hxd.symm
          · exact Or.inr (ih.mpr ⟨x, h, hxd⟩)

theorem groupRuns_days_sorted (l : List Booking) (hl : List.Sorted bkLe l) :
    ((groupRuns l).map Prod.fst).Sorted (fun a c => strLt a c = true) := by
  induction l with
  | nil => simp [show groupRuns [] = [] from rfl]
  | cons b bs ih =>
    rw [List.sorted_cons] at hl
    obtain ⟨hball, hbs⟩ := hl
    have ihs := ih hbs
    have hle : ∀ d' ∈ (groupRuns bs).map Prod.fst,
        b.day = d' ∨ strLt b.day d' = true := by
      intro d' hd'
      rcases (groupRuns_days_mem bs d').mp hd' with ⟨x, hx, hxd⟩
      rcases hball x hx with hlt | ⟨heq, _⟩
      · exact Or.inr (hxd ▸ hlt)
      · exact Or.inl (hxd ▸ heq)
    cases hg : groupRuns bs with
    | nil =>
      rw [groupRuns_cons_nil b bs hg]
      simp
    | cons q rest =>
      obtain ⟨d0, g⟩ := q
      rw [hg] at ihs hle
      by_cases hd : b.day = d0
      · rw [groupRuns_cons_cons b bs d0 g rest hg, if_pos hd]
        simpa using ihs
      · rw [groupRuns_cons_cons b bs d0 g rest hg, if_neg hd]
        simp only [List.map_cons]
        rw [List.sorted_cons]
        have ihs' : List.Sorted (fun a c => strLt a c = true)
            (d0 :: List.map Prod.fst rest) := by
          simpa using ihs
        refine ⟨?_, ihs'⟩
        have hbd0 : strLt b.day d0 = true := by
          rcases hle d0 (by simp) with h | h
          · exact absurd h hd
          · exact h
        intro d' hd'
        rcases List.mem_cons.mp hd' with h1 | h1
        · rw [h1]
          exact hbd0
        · exact strLt_trans hbd0 ((List.sorted_cons.mp ihs').1 d' h1)

theorem groupRuns_group_sorted (l : List Booking) (hl : List.Sorted bkLe l) :
    ∀ p ∈ groupRuns l, p.2.Sorted (fun a c => a.id ≤ c.id) := by
  intro p hp
  have hsub := groupRuns_sublist l p hp
  have hs : p.2.Pairwise bkLe := List.Pairwise.sublist hsub hl
  have hday := groupRuns_day l p hp
  refine List.Pairwise.imp_of_mem ?_ hs
  intro a c ha hc hac
  rcases hac with hlt | ⟨_, hle⟩
  · rw [hday a ha, hday c hc, strLt_irrefl] at hlt
    cases hlt
  · exact hle

/-- C6: a summary for truthy year/month has one group per distinct day
with at least one booking in `[year-month-01, next-month-01)`, the group
counts sum to the number of bookings in that range, each group's client
list is ordered by id ascending with null phone/notes rendered as the
empty string, and the groups are ordered by day ascending. -/
theorem claim_C6_summary (y mo : Int) (s : Store) (out : List DayGroup)
    (hy : y ≠ 0) (hmo : mo ≠ 0)
    (h : summaryF (some y) (some mo) s = Except.ok out) :
    ((out.map DayGroup.count).sum =
      (List.filter (fun b => dayGe b.day (monthStart y mo) &&
        dayLt b.day (monthNext y mo)) s).length) ∧
    (∀ d : String, d ∈ out.map DayGroup.day ↔
      ∃ b ∈ s, b.day = d ∧ dayGe b.day (monthStart y mo) = true ∧
        dayLt b.day (monthNext y mo) = true) ∧
    ((out.map DayGroup.day).Sorted (fun a c => strLt a c = true)) ∧
    (∀ g ∈ out, g.count = g.clients.length ∧
      g.clients.Sorted (fun a c => a.id ≤ c.id) ∧
      ∀ c ∈ g.clients, ∃ b, b ∈ s ∧ b.day = g.day ∧
        dayGe b.day (monthStart y mo) = true ∧ dayLt b.day (monthNext y mo) = true ∧
        c = ClientRow.mk b.id b.name (b.phone.getD "") (b.notes.getD "")) := by
  have hguard : ¬(otruthy (some y) = false ∨ otruthy (some mo) = false) := by
    simp [otruthy]
    exact ⟨hy, hmo⟩
  unfold summaryF at h
  rw [if_neg hguard] at h
  simp only [Option.getD_some] at h
  injection h with h
  subst h
  set inR := List.filter
    (fun b => dayGe b.day (monthStart y mo) && dayLt b.day (monthNext y mo)) s with hinR
  set srt := List.insertionSort bkLe inR with hsrt
  have hsorted : List.Sorted bkLe srt := List.sorted_insertionSort bkLe inR
  have hperm : srt.Perm inR := List.perm_insertionSort bkLe inR
  refine ⟨?_, ?_, ?_, ?_⟩
  · rw [List.map_map]
    have hmm : (DayGroup.count ∘ fun p : String × List Booking =>
        DayGroup.mk p.1 p.2.length (p.2.map toClientRow)) =
        fun p => p.2.length := rfl
    rw [hmm, groupRuns_sum, hperm.length_eq]
  · intro d
    rw [List.map_map]
    have hmm : (DayGroup.day ∘ fun p : String × List Booking =>
        DayGroup.mk p.1 p.2.length (p.2.map toClientRow)) = Prod.fst := rfl
    rw [hmm, groupRuns_days_mem]
    constructor
    · intro hex
      obtain ⟨b, hb, hbd⟩ := hex
      have hb2 := hperm.mem_iff.mp hb
      rw [hinR, List.mem_filter] at hb2
      obtain ⟨hbs, hcond⟩ := hb2
      rw [Bool.and_eq_true] at hcond
      exact ⟨b, hbs, hbd, hcond.1, hcond.2⟩
    · intro hex
      obtain ⟨b, hbs, hbd, hc1, hc2⟩ := hex
      refine ⟨b, ?_, hbd⟩
      rw [hperm.mem_iff, hinR, List.mem_filter]
      refine ⟨hbs, ?_⟩
      rw [Bool.and_eq_true]
      exact ⟨hc1, hc2⟩
  · rw [List.map_map]
    have hmm : (DayGroup.day ∘ fun p : String × List Booking =>
        DayGroup.mk p.1 p.2.length (p.2.map toClientRow)) = Prod.fst := rfl
    rw [hmm]
    exact groupRuns_days_sorted srt hsorted
  · intro g hg
    rw [List.mem_map] at hg
    obtain ⟨p, hp, hpg⟩ := hg
    subst hpg
    refine ⟨by simp, ?_, ?_⟩
    · have hps := groupRuns_group_sorted srt hsorted p hp
      rw [show (DayGroup.mk p.1 p.2.length (p.2.map toClientRow)).clients =
        p.2.map toClientRow from rfl]
      exact List.pairwise_map.mpr hps
    · intro c hc
      rw [show (DayGroup.mk p.1 p.2.length (p.2.map toClientRow)).clients =
        p.2.map toClientRow from rfl] at hc
      rw [List.mem_map] at hc
      obtain ⟨b, hb, hbc⟩ := hc
      have hbmem : b ∈ srt := (groupRuns_sublist srt p hp).mem hb
      have hb2 := hperm.mem_iff.mp hbmem
      rw [hinR, List.mem_filter] at hb2
      obtain ⟨hbs, hcond⟩ := hb2
      rw [Bool.and_eq_true] at hcond
      refine ⟨b, hbs, ?_, hcond.1, hcond.2, ?_⟩
      · exact groupRuns_day srt p hp b hb
      · rw [← hbc]
        rfl

/-! ## Concrete instances for the search and summary claims -/

/-- A small table exercising the search filters. -/
def c5Store : Store :=
  [⟨3, "2024-07-01", "ana", none, none⟩,
   ⟨1, "2024-06-10", "Mariana", none, none⟩,
   ⟨2, "2024-06-03", "Banana", none, none⟩,
   ⟨4, "2024-06-05", "Pedro", none, none⟩]

/-- Expected result of `search("ana", 2024, 6)` on `c5Store`. -/
def c5Out : List Booking :=
  [⟨2, "2024-06-03", "Banana", none, none⟩,
   ⟨1, "2024-06-10", "Mariana", none, none⟩]

theorem claim_C5_search_month_witness :
    c5Out.Perm (List.filter (fun b => nameMatches (trimStr "ana") b &&
        dayGe b.day (monthStart 2024 6) && dayLt b.day (monthNext 2024 6)) c5Store) ∧
    List.Sorted bkLe c5Out ∧
    (∀ b : Booking, b ∈ c5Out ↔ b ∈ c5Store ∧
      nameMatches (trimStr "ana") b = true ∧
      dayGe b.day (monthStart 2024 6) = true ∧ dayLt b.day (monthNext 2024 6) = true) ∧
    ((6 : Int) = 12 → monthNext 2024 6 = toString (2024 + 1 : Int) ++ "-01-01") :=
  claim_C5_search_month "ana" 2024 6 c5Store c5Out (by decide) (by decide) (by decide)

/-- A small table exercising the summary grouping. -/
def c6Store : Store :=
  [⟨1, "2024-06-03", "Ana", none, some "x"⟩,
   ⟨2, "2024-06-03", "Luis", some "55", none⟩,
   ⟨3, "2024-07-01", "Eva", none, none⟩,
   ⟨4, "2024-06-04", "Mar", none, none⟩]

/-- Expected result of `summary(2024, 6)` on `c6Store`. -/
def c6Out : List DayGroup :=
  [⟨"2024-06-03", 2, [⟨1, "Ana", "", "x"⟩, ⟨2, "Luis", "55", ""⟩]⟩,
   ⟨"2024-06-04", 1, [⟨4, "Mar", "", ""⟩]⟩]

theorem claim_C6_summary_witness :
    ((c6Out.map DayGroup.count).sum =
      (List.filter (fun b => dayGe b.day (monthStart 2024 6) &&
        dayLt b.day (monthNext 2024 6)) c6Store).length) ∧
    (∀ d : String, d ∈ c6Out.map DayGroup.day ↔
      ∃ b ∈ c6Store, b.day = d ∧ dayGe b.day (monthStart 2024 6) = true ∧
        dayLt b.day (monthNext 2024 6) = true) ∧
    ((c6Out.map DayGroup.day).Sorted (fun a c => strLt a c = true)) ∧
    (∀ g ∈ c6Out, g.count = g.clients.length ∧
      g.clients.Sorted (fun a c => a.id ≤ c.id) ∧
      ∀ c ∈ g.clients, ∃ b, b ∈ c6Store ∧ b.day = g.day ∧
        dayGe b.day (monthStart 2024 6) = true ∧ dayLt b.day (monthNext 2024 6) = true ∧
        c = ClientRow.mk b.id b.name (b.phone.getD "") (b.notes.getD "")) :=
  claim_C6_summary 2024 6 c6Store c6Out (by decide) (by decide) (by decide)
